import Mathlib

/-!
Shallow embedding of the SMASH excerpt:
  * `src/src/interpolation.cc` — the natural cubic-spline interpolator
    `InterpolateDataSpline` (constructor, destructor, `operator()`),
  * `src/src/include/smash/rootoutput.h` — the `RootOutput` writer state
    (fixed-capacity per-field buffers).

C++ `double` values are modelled by exact rationals `ℚ`; where IEEE special
values matter for control flow (the comparisons in `operator()`), the type
`FP` adds a NaN value with IEEE comparison semantics (every comparison with
NaN is false).  The GSL natural cubic spline (`gsl_interp_cspline`) is
modelled by the textbook construction it implements: second-derivative
coefficients from a symmetric tridiagonal system with natural boundary
conditions, and piecewise cubic evaluation on the interval found by a
search over the sorted abscissae.  The GSL accelerator (`gsl_interp_accel`)
is modelled as a cached interval index threaded through evaluation.
-/

namespace Smash

/-- A C++ `double` as far as the interpolator's control flow observes it:
either a real (rational) value or NaN. -/
inductive FP where
  | num (q : ℚ)
  | nan
deriving DecidableEq, Repr

/-- IEEE `<` on doubles: any comparison involving NaN is false. -/
def FP.lt : FP → FP → Bool
  | .num a, .num b => decide (a < b)
  | _, _ => false

/-- IEEE `>` on doubles: any comparison involving NaN is false. -/
def FP.gt : FP → FP → Bool
  | .num a, .num b => decide (b < a)
  | _, _ => false

/-- Evaluation of one cubic piece of the GSL cspline, exactly as
`cspline_eval` computes it from the stored second-derivative coefficients
`c0`, `c1` of the two interval endpoints:
`b = Δy/h − h(c1 + 2c0)/3`, `d = (c1 − c0)/(3h)`,
`S(t) = y0 + dx(b + dx(c0 + dx·d))` with `dx = t − x0`, `h = x1 − x0`. -/
def pieceEval (x0 x1 y0 y1 c0 c1 t : ℚ) : ℚ :=
  let h := x1 - x0
  let dx := t - x0
  let dy := y1 - y0
  let b := dy / h - h * (c1 + 2 * c0) / 3
  let d := (c1 - c0) / (3 * h)
  y0 + dx * (b + dx * (c0 + dx * d))

/-- Forward sweep of the Thomas algorithm on a tridiagonal system given as
rows `(sub, diag, super, rhs)`; returns the modified `(super, rhs)` pairs. -/
def thomasFwd (prevCp prevDp : ℚ) : List (ℚ × ℚ × ℚ × ℚ) → List (ℚ × ℚ)
  | [] => []
  | (ai, bi, ci, di) :: rest =>
    let denom := bi - ai * prevCp
    let cp := ci / denom
    let dp := (di - ai * prevDp) / denom
    (cp, dp) :: thomasFwd cp dp rest

/-- Back substitution of the Thomas algorithm. -/
def thomasBack : List (ℚ × ℚ) → List ℚ
  | [] => []
  | (cp, dp) :: rest =>
    let tail := thomasBack rest
    (dp - cp * tail.headD 0) :: tail

/-- Solve a tridiagonal system given as rows `(sub, diag, super, rhs)`
(the sub-entry of the first row and the super-entry of the last row are
ignored, as in `gsl_linalg_solve_symm_tridiag`). -/
def thomasSolve (rows : List (ℚ × ℚ × ℚ × ℚ)) : List ℚ :=
  thomasBack (thomasFwd 0 0 rows)

/-- The second-derivative coefficients of the natural cubic spline through
the sorted samples, as `gsl_spline_init` with `gsl_interp_cspline` computes
them: `c 0 = c (n−1) = 0` (natural boundary) and, for the interior nodes,
the symmetric tridiagonal system with `diag j = 2(h j + h (j+1))`,
`offdiag j = h (j+1)` and
`rhs j = 3((y (j+2) − y (j+1))/h (j+1) − (y (j+1) − y j)/h j)`. -/
def naturalC (xs ys : List ℚ) : List ℚ :=
  let n := xs.length
  if n < 3 then List.replicate n 0
  else
    let h := fun i => xs.getD (i + 1) 0 - xs.getD i 0
    let rows := (List.range (n - 2)).map fun j =>
      (h j, 2 * (h j + h (j + 1)), h (j + 1),
        3 * ((ys.getD (j + 2) 0 - ys.getD (j + 1) 0) / h (j + 1)
              - (ys.getD (j + 1) 0 - ys.getD j 0) / h j))
    0 :: (thomasSolve rows ++ [0])

/-- Interval search over the sorted abscissae, accumulating the index:
returns the first `i` with `t < xs (i+1)`, clamped to the last interval
index `n − 2` (GSL's `gsl_interp_bsearch` result on sorted input). -/
def fiGo (t : ℚ) : Nat → List ℚ → Nat
  | i, _ :: x1 :: x2 :: rest =>
    if t < x1 then i else fiGo t (i + 1) (x1 :: x2 :: rest)
  | i, _ => i

/-- The interval index used for evaluation at `t`. -/
def findInterval (xs : List ℚ) (t : ℚ) : Nat :=
  fiGo t 0 xs

/-- `gsl_spline_eval` of the natural cubic spline through `(xs, ys)` at a
real argument `t`: find the interval and evaluate its cubic piece. -/
def splineEval (xs ys : List ℚ) (t : ℚ) : ℚ :=
  pieceEval (xs.getD (findInterval xs t) 0) (xs.getD (findInterval xs t + 1) 0)
    (ys.getD (findInterval xs t) 0) (ys.getD (findInterval xs t + 1) 0)
    ((naturalC xs ys).getD (findInterval xs t) 0)
    ((naturalC xs ys).getD (findInterval xs t + 1) 0) t

/-- The state of a constructed `InterpolateDataSpline`: the sorted sample
arrays held by the GSL spline object, and the four stored boundary values
`first_x_`, `last_x_`, `first_y_`, `last_y_`. -/
structure Interp where
  xs : List ℚ
  ys : List ℚ
  first_x_ : ℚ
  last_x_ : ℚ
  first_y_ : ℚ
  last_y_ : ℚ
deriving DecidableEq, Repr

/-- Which branch of `InterpolateDataSpline::operator()` runs. -/
inductive Branch where
  | below
  | above
  | spline
deriving DecidableEq, Repr

/-- The branch selection of `operator()(xi)`: `xi < first_x_` returns the
stored `first_y_`; otherwise `xi > last_x_` returns `last_y_`; otherwise
the cubic spline is evaluated. -/
def branchOf (itp : Interp) (xi : FP) : Branch :=
  if FP.lt xi (.num itp.first_x_) then .below
  else if FP.gt xi (.num itp.last_x_) then .above
  else .spline

/-- `InterpolateDataSpline::operator()(xi)`.  In the spline branch a NaN
argument propagates through the piece polynomial to a NaN result. -/
def evaluate (itp : Interp) (xi : FP) : FP :=
  match branchOf itp xi with
  | .below => .num itp.first_y_
  | .above => .num itp.last_y_
  | .spline =>
    match xi with
    | .num q => .num (splineEval itp.xs itp.ys q)
    | .nan => .nan

/-- The GSL accelerator lookup: if the cached interval brackets `t`, reuse
it, otherwise search; the returned index becomes the new cache. -/
def accelFind (xs : List ℚ) (cache : Nat) (t : ℚ) : Nat :=
  if cache + 1 < xs.length ∧ xs.getD cache 0 ≤ t ∧ t < xs.getD (cache + 1) 0
    then cache
    else findInterval xs t

/-- `operator()(xi)` with the accelerator cache made explicit: returns the
result together with the cache left behind for the next call.  The two
extrapolation branches never touch the accelerator. -/
def evaluateAcc (itp : Interp) (cache : Nat) (xi : FP) : FP × Nat :=
  match branchOf itp xi with
  | .below => (.num itp.first_y_, cache)
  | .above => (.num itp.last_y_, cache)
  | .spline =>
    match xi with
    | .num q =>
      (.num (pieceEval (itp.xs.getD (accelFind itp.xs cache q) 0)
          (itp.xs.getD (accelFind itp.xs cache q + 1) 0)
          (itp.ys.getD (accelFind itp.xs cache q) 0)
          (itp.ys.getD (accelFind itp.xs cache q + 1) 0)
          ((naturalC itp.xs itp.ys).getD (accelFind itp.xs cache q) 0)
          ((naturalC itp.xs itp.ys).getD (accelFind itp.xs cache q + 1) 0) q),
        accelFind itp.xs cache q)
    | .nan => (.nan, cache)

/-- The constructor's errors.  The C++ code throws `std::runtime_error`
with a descriptive message; the spec names the three cases.  The duplicate
case carries the offending abscissa, which the message names. -/
inductive InterpError where
  | invalidInput
  | insufficientData
  | duplicateAbscissa (val : ℚ)
deriving DecidableEq, Repr

/-- The first abscissa that equals its successor in the sorted list, if
any — the constructor's duplicate scan over adjacent sorted entries. -/
def findDup : List ℚ → Option ℚ
  | a :: b :: rest => if a = b then some a else findDup (b :: rest)
  | _ => none

/-- Comparison of (x, y) pairs by abscissa, the sort key of the
constructor's permutation. -/
def leFst (a b : ℚ × ℚ) : Prop :=
  a.1 ≤ b.1

instance : DecidableRel leFst := fun a b =>
  inferInstanceAs (Decidable (a.1 ≤ b.1))

instance : IsTotal (ℚ × ℚ) leFst :=
  ⟨fun a b => le_total a.1 b.1⟩

instance : IsTrans (ℚ × ℚ) leFst :=
  ⟨fun _ _ _ h h' => le_trans h h'⟩

/-- Modelled from the spec: `generate_sort_permutation` and
`apply_permutation` are declared in `include/interpolation.h`, which is not
part of the excerpt.  The spec says the (x, y) pairs are stable-sorted by x
ascending, with one permutation applied to both sequences so pairs are
carried together; that is exactly a stable sort of the zipped pairs by
first component. -/
def sortedPairs (x y : List ℚ) : List (ℚ × ℚ) :=
  List.insertionSort leFst (x.zip y)

/-- The sorted abscissae (`sorted_x` in the constructor). -/
def sortedX (x y : List ℚ) : List ℚ :=
  (sortedPairs x y).map Prod.fst

/-- The sorted ordinates (`sorted_y` in the constructor). -/
def sortedY (x y : List ℚ) : List ℚ :=
  (sortedPairs x y).map Prod.snd

instance {ε α : Type} [DecidableEq ε] [DecidableEq α] : DecidableEq (Except ε α) := fun a b =>
  match a, b with
  | .ok a, .ok b => decidable_of_iff (a = b) (by simp)
  | .error e, .error f => decidable_of_iff (e = f) (by simp)
  | .ok _, .error _ => isFalse (by simp)
  | .error _, .ok _ => isFalse (by simp)

/-- `InterpolateDataSpline::InterpolateDataSpline(x, y)`: check equal
lengths, then the minimum point count, then sort the pairs and reject a
duplicated abscissa, and finally store the boundary values (`front`/`back`
of the sorted vectors) and build the spline from the sorted samples. -/
def construct (x y : List ℚ) : Except InterpError Interp :=
  if y.length ≠ x.length then .error .invalidInput
  else if x.length < 3 then .error .insufficientData
  else
    match findDup (sortedX x y) with
    | some v => .error (.duplicateAbscissa v)
    | none =>
      .ok { xs := sortedX x y, ys := sortedY x y,
            first_x_ := (sortedX x y).headD 0,
            last_x_ := (sortedX x y).getLastD 0,
            first_y_ := (sortedY x y).headD 0,
            last_y_ := (sortedY x y).getLastD 0 }

/-- `RootOutput::max_buffer_size_` — `static const int max_buffer_size_ =
10000;`, a compile-time constant. -/
def max_buffer_size_ : Nat := 10000

/-- A fixed-capacity field buffer: `std::array<T, max_buffer_size_>`. -/
def Buffer (α : Type) : Type :=
  { l : List α // l.length = max_buffer_size_ }

/-- The `RootOutput` writer state from `rootoutput.h`: one fixed-capacity
buffer per particle field (eleven `double` arrays and seven `int` arrays,
all of size `max_buffer_size_`), the per-block scalars, and the
configuration flags. -/
structure RootOutput where
  p0 : Buffer ℚ
  px : Buffer ℚ
  py : Buffer ℚ
  pz : Buffer ℚ
  t : Buffer ℚ
  x : Buffer ℚ
  y : Buffer ℚ
  z : Buffer ℚ
  formation_time_ : Buffer ℚ
  xsec_factor_ : Buffer ℚ
  time_last_coll_ : Buffer ℚ
  pdgcode : Buffer ℤ
  charge : Buffer ℤ
  coll_per_part_ : Buffer ℤ
  proc_id_origin_ : Buffer ℤ
  proc_type_origin_ : Buffer ℤ
  pdg_mother1_ : Buffer ℤ
  pdg_mother2_ : Buffer ℤ
  npart : ℤ
  tcounter : ℤ
  ev : ℤ
  nin : ℤ
  nout : ℤ
  wgt : ℚ
  par_wgt : ℚ
  impact_b : ℚ
  empty_event_ : Bool
  write_collisions_ : Bool
  write_particles_ : Bool
  write_initial_conditions_ : Bool
  particles_only_final_ : Bool
  autosave_frequency_ : ℤ
  part_extended_ : Bool
  coll_extended_ : Bool
  ic_extended_ : Bool
  output_counter_ : ℤ
  current_event_ : ℤ

/-! ### Helper lemmas about the sorted samples -/

lemma sortedPairs_perm (x y : List ℚ) :
    List.Perm (sortedPairs x y) (x.zip y) :=
  List.perm_insertionSort _ _

lemma sortedPairs_sorted (x y : List ℚ) :
    List.Sorted leFst (sortedPairs x y) :=
  List.sorted_insertionSort _ _

lemma sortedX_sorted (x y : List ℚ) :
    List.Sorted (· ≤ ·) (sortedX x y) := by
  unfold sortedX
  exact (List.pairwise_map).2 (sortedPairs_sorted x y)

lemma sortedX_perm (x y : List ℚ) (h : x.length ≤ y.length) :
    List.Perm (sortedX x y) x := by
  unfold sortedX
  have := (sortedPairs_perm x y).map Prod.fst
  rwa [List.map_fst_zip x y h] at this

lemma sortedY_perm (x y : List ℚ) (h : y.length ≤ x.length) :
    List.Perm (sortedY x y) y := by
  unfold sortedY
  have := (sortedPairs_perm x y).map Prod.snd
  rwa [List.map_snd_zip x y h] at this

lemma sortedPairs_length (x y : List ℚ) (h : y.length = x.length) :
    (sortedPairs x y).length = x.length := by
  rw [(sortedPairs_perm x y).length_eq, List.length_zip, h, Nat.min_self]

lemma sortedX_length (x y : List ℚ) (h : y.length = x.length) :
    (sortedX x y).length = x.length := by
  unfold sortedX
  rw [List.length_map, sortedPairs_length x y h]

lemma sortedY_length (x y : List ℚ) (h : y.length = x.length) :
    (sortedY x y).length = x.length := by
  unfold sortedY
  rw [List.length_map, sortedPairs_length x y h]

/-! ### The duplicate scan -/

lemma findDup_eq_none_iff (l : List ℚ) :
    findDup l = none ↔ l.Chain' (· ≠ ·) := by
  induction l with
  | nil => simp [findDup]
  | cons a l ih =>
    cases l with
    | nil => simp [findDup]
    | cons b t =>
      by_cases hab : a = b
      · simp [findDup, hab]
      · simp [findDup, hab, List.chain'_cons, ih]

lemma findDup_eq_some_adj (l : List ℚ) (v : ℚ) (h : findDup l = some v) :
    ∃ i, l[i]? = some v ∧ l[i + 1]? = some v := by
  induction l with
  | nil => simp [findDup] at h
  | cons a l ih =>
    cases l with
    | nil => simp [findDup] at h
    | cons b t =>
      by_cases hab : a = b
      · subst hab
        simp [findDup] at h
        exact ⟨0, by simp [h], by simp [h]⟩
      · rw [show findDup (a :: b :: t) = findDup (b :: t) by simp [findDup, hab]] at h
        obtain ⟨i, h1, h2⟩ := ih h
        exact ⟨i + 1, by simpa using h1, by simpa using h2⟩

lemma chain'_ne_iff_no_adj (l : List ℚ) :
    l.Chain' (· ≠ ·) ↔ ¬ ∃ i v, l[i]? = some v ∧ l[i + 1]? = some v := by
  rw [List.chain'_iff_get]
  constructor
  · rintro h ⟨i, v, h1, h2⟩
    obtain ⟨hi1, e1⟩ := List.getElem?_eq_some.1 h1
    obtain ⟨hi2, e2⟩ := List.getElem?_eq_some.1 h2
    refine h i (by omega) ?_
    simp only [List.get_eq_getElem]
    rw [e1, e2]
  · intro h i hi hc
    have hi1 : i < l.length := by omega
    have hi2 : i + 1 < l.length := by omega
    refine h ⟨i, l.get ⟨i + 1, hi2⟩, ?_, ?_⟩
    · rw [List.getElem?_eq_getElem hi1]
      simp only [List.get_eq_getElem] at hc ⊢
      rw [hc]
    · rw [List.getElem?_eq_getElem hi2]
      simp only [List.get_eq_getElem]

/-! ### Sorted-list order facts -/

lemma sorted_headD_le (l : List ℚ) (hs : List.Sorted (· ≤ ·) l) :
    ∀ a ∈ l, l.headD 0 ≤ a := by
  cases l with
  | nil => intro a ha; simp at ha
  | cons b t =>
    intro a ha
    rcases List.mem_cons.1 ha with rfl | ha'
    · simp
    · simpa using (List.sorted_cons.1 hs).1 a ha'

lemma pairwise_le_last (l : List ℚ) (hp : List.Pairwise (· ≤ ·) l) :
    ∀ a ∈ l, ∀ b, l.getLast? = some b → a ≤ b := by
  induction l with
  | nil => intro a ha; simp at ha
  | cons c t ih =>
    intro a ha b hb
    cases t with
    | nil =>
      simp at hb ha
      subst hb; subst ha; exact le_refl _
    | cons d t' =>
      rw [List.getLast?_cons_cons] at hb
      rcases List.mem_cons.1 ha with rfl | ha'
      · exact (List.pairwise_cons.1 hp).1 b (List.mem_of_getLast?_eq_some hb)
      · exact ih (List.pairwise_cons.1 hp).2 a ha' b hb

lemma sorted_le_getLastD (l : List ℚ) (hs : List.Sorted (· ≤ ·) l)
    (hne : l ≠ []) : ∀ a ∈ l, a ≤ l.getLastD 0 := by
  intro a ha
  rw [List.getLastD_eq_getLast?, List.getLast?_eq_getLast l hne]
  exact pairwise_le_last l hs a ha _ (List.getLast?_eq_getLast l hne)

lemma chain'_lt_of_sorted_ne (l : List ℚ) (hs : List.Sorted (· ≤ ·) l)
    (hne : l.Chain' (· ≠ ·)) : l.Chain' (· < ·) := by
  induction l with
  | nil => simp
  | cons a t ih =>
    cases t with
    | nil => simp
    | cons b t' =>
      rw [List.chain'_cons] at hne ⊢
      refine ⟨lt_of_le_of_ne ?_ hne.1, ih hs.of_cons hne.2⟩
      exact (List.sorted_cons.1 hs).1 b (List.mem_cons_self _ _)

lemma pairwise_lt_of_chain' (l : List ℚ) (h : l.Chain' (· < ·)) :
    List.Pairwise (· < ·) l :=
  List.chain'_iff_pairwise.1 h

/-! ### Index bookkeeping for zipped pairs -/

lemma mem_zip_index (x y : List ℚ) (a b : ℚ) (h : (a, b) ∈ x.zip y) :
    ∃ i : Nat, x[i]? = some a ∧ y[i]? = some b := by
  obtain ⟨i, hi, hget⟩ := List.mem_iff_getElem.1 h
  have hx : i < x.length := by
    rw [List.length_zip] at hi; omega
  have hy : i < y.length := by
    rw [List.length_zip] at hi; omega
  have hz := List.getElem_zip (h := hi)
  rw [hget] at hz
  obtain ⟨ha, hb⟩ := Prod.mk.injEq .. ▸ hz
  refine ⟨i, ?_, ?_⟩
  · rw [List.getElem?_eq_getElem hx, ← ha]
  · rw [List.getElem?_eq_getElem hy, ← hb]

/-! ### Unfolding the constructor -/

lemma construct_ok (x y : List ℚ) (itp : Interp)
    (h : construct x y = .ok itp) :
    y.length = x.length ∧ 3 ≤ x.length ∧
      findDup (sortedX x y) = none ∧
      itp.xs = sortedX x y ∧ itp.ys = sortedY x y ∧
      itp.first_x_ = (sortedX x y).headD 0 ∧
      itp.last_x_ = (sortedX x y).getLastD 0 ∧
      itp.first_y_ = (sortedY x y).headD 0 ∧
      itp.last_y_ = (sortedY x y).getLastD 0 := by
  unfold construct at h
  split_ifs at h with h1 h2
  rw [not_not] at h1
  rw [not_lt] at h2
  split at h
  · exact absurd h (by simp)
  · rename_i hdup
    rw [Except.ok.injEq] at h
    subst h
    exact ⟨h1, h2, hdup, rfl, rfl, rfl, rfl, rfl, rfl⟩

lemma construct_xs_facts (x y : List ℚ) (itp : Interp)
    (h : construct x y = .ok itp) :
    itp.xs.length = x.length ∧ itp.ys.length = x.length ∧
      List.Sorted (· ≤ ·) itp.xs ∧ List.Pairwise (· < ·) itp.xs := by
  obtain ⟨hlen, h3, hdup, hxs, hys, -, -, -, -⟩ := construct_ok x y itp h
  have hxlen : itp.xs.length = x.length := by
    rw [hxs, sortedX_length x y hlen]
  have hylen : itp.ys.length = x.length := by
    rw [hys, sortedY_length x y hlen]
  have hsorted : List.Sorted (· ≤ ·) itp.xs := hxs ▸ sortedX_sorted x y
  have hne : (sortedX x y).Chain' (· ≠ ·) := (findDup_eq_none_iff _).1 hdup
  have hlt : List.Pairwise (· < ·) itp.xs :=
    pairwise_lt_of_chain' _ (chain'_lt_of_sorted_ne _ hsorted (hxs ▸ hne))
  exact ⟨hxlen, hylen, hsorted, hlt⟩

/-! ### Interval search -/

lemma head_le_getD (a : ℚ) (l : List ℚ)
    (hp : List.Pairwise (· ≤ ·) (a :: l)) (k : Nat)
    (hk : k < (a :: l).length) : a ≤ (a :: l).getD k 0 := by
  cases k with
  | zero => simp
  | succ k =>
    have hk' : k < l.length := by simpa using hk
    rw [List.getD_cons_succ, List.getD_eq_getElem l 0 hk']
    exact (List.pairwise_cons.1 hp).1 _ (l.getElem_mem hk')

lemma fiGo_bracket (t : ℚ) :
    ∀ (xs : List ℚ) (k i : Nat), List.Pairwise (· < ·) xs →
      k + 1 < xs.length → xs.getD k 0 ≤ t → t < xs.getD (k + 1) 0 →
      fiGo t i xs = i + k := by
  intro xs
  induction xs with
  | nil => intro k i _ hk; simp at hk
  | cons x0 tail ih =>
    intro k i hp hk hlo hhi
    cases tail with
    | nil => simp at hk
    | cons x1 tail2 =>
      cases tail2 with
      | nil =>
        simp only [List.length_cons, List.length_nil] at hk
        have hk0 : k = 0 := by omega
        subst hk0
        simp only [fiGo]
        omega
      | cons x2 tail3 =>
        cases k with
        | zero =>
          simp only [fiGo]
          rw [if_pos (by simpa using hhi)]
          omega
        | succ k =>
          have hx1le : x1 ≤ (x1 :: x2 :: tail3).getD k 0 := by
            refine head_le_getD x1 (x2 :: tail3)
              ((List.pairwise_cons.1 hp).2.imp le_of_lt) k ?_
            simp at hk ⊢; omega
          have hnotlt : ¬ t < x1 := by
            rw [List.getD_cons_succ] at hlo
            exact not_lt.2 (le_trans hx1le hlo)
          simp only [fiGo]
          rw [if_neg hnotlt]
          have := ih k (i + 1) (List.pairwise_cons.1 hp).2
            (by simpa using hk) (by simpa using hlo) (by simpa using hhi)
          omega

lemma fiGo_ge_all (t : ℚ) :
    ∀ (xs : List ℚ) (i : Nat), 2 ≤ xs.length →
      (∀ a ∈ xs, a ≤ t) → fiGo t i xs = i + (xs.length - 2) := by
  intro xs
  induction xs with
  | nil => intro i h; simp at h
  | cons x0 tail ih =>
    intro i h2 hall
    cases tail with
    | nil => simp at h2
    | cons x1 tail2 =>
      cases tail2 with
      | nil => simp [fiGo]
      | cons x2 tail3 =>
        have hx1 : x1 ≤ t := hall x1 (by simp)
        simp only [fiGo]
        rw [if_neg (not_lt.2 hx1)]
        have := ih (i + 1) (by simp)
          (fun a ha => hall a (List.mem_cons_of_mem _ ha))
        rw [this]
        simp only [List.length_cons]
        omega

lemma findInterval_bracket (xs : List ℚ) (t : ℚ) (k : Nat)
    (hp : List.Pairwise (· < ·) xs) (hk : k + 1 < xs.length)
    (hlo : xs.getD k 0 ≤ t) (hhi : t < xs.getD (k + 1) 0) :
    findInterval xs t = k := by
  have := fiGo_bracket t xs k 0 hp hk hlo hhi
  simpa [findInterval] using this

lemma findInterval_ge_all (xs : List ℚ) (t : ℚ) (h2 : 2 ≤ xs.length)
    (hall : ∀ a ∈ xs, a ≤ t) : findInterval xs t = xs.length - 2 := by
  have := fiGo_ge_all t xs 0 h2 hall
  simpa [findInterval] using this

/-! ### The cubic piece at the interval endpoints -/

lemma pieceEval_left (x0 x1 y0 y1 c0 c1 : ℚ) :
    pieceEval x0 x1 y0 y1 c0 c1 x0 = y0 := by
  simp only [pieceEval]
  ring

lemma pieceEval_right (x0 x1 y0 y1 c0 c1 : ℚ) (h : x0 ≠ x1) :
    pieceEval x0 x1 y0 y1 c0 c1 x1 = y1 := by
  have hsub : x1 - x0 ≠ 0 := sub_ne_zero.2 (Ne.symm h)
  simp only [pieceEval]
  field_simp
  ring

/-! ### Branch selection of `operator()` -/

lemma branchOf_num_below (itp : Interp) (q : ℚ) (h : q < itp.first_x_) :
    branchOf itp (.num q) = .below := by
  simp [branchOf, FP.lt, h]

lemma branchOf_num_above (itp : Interp) (q : ℚ) (h1 : ¬ q < itp.first_x_)
    (h2 : itp.last_x_ < q) : branchOf itp (.num q) = .above := by
  simp [branchOf, FP.lt, FP.gt, h1, h2]

lemma branchOf_num_spline (itp : Interp) (q : ℚ) (h1 : itp.first_x_ ≤ q)
    (h2 : q ≤ itp.last_x_) : branchOf itp (.num q) = .spline := by
  simp [branchOf, FP.lt, FP.gt, not_lt.2 h1, not_lt.2 h2]

lemma branchOf_nan (itp : Interp) : branchOf itp .nan = .spline := by
  simp [branchOf, FP.lt, FP.gt]

lemma evaluate_num_below (itp : Interp) (q : ℚ) (h : q < itp.first_x_) :
    evaluate itp (.num q) = .num itp.first_y_ := by
  rw [evaluate, branchOf_num_below itp q h]

lemma evaluate_num_above (itp : Interp) (q : ℚ) (h1 : ¬ q < itp.first_x_)
    (h2 : itp.last_x_ < q) : evaluate itp (.num q) = .num itp.last_y_ := by
  rw [evaluate, branchOf_num_above itp q h1 h2]

lemma evaluate_num_spline (itp : Interp) (q : ℚ) (h1 : itp.first_x_ ≤ q)
    (h2 : q ≤ itp.last_x_) :
    evaluate itp (.num q) = .num (splineEval itp.xs itp.ys q) := by
  rw [evaluate, branchOf_num_spline itp q h1 h2]

lemma evaluate_nan (itp : Interp) : evaluate itp .nan = .nan := by
  rw [evaluate, branchOf_nan itp]

/-! ### The spline passes through the sorted samples -/

lemma splineEval_sample (xs ys : List ℚ) (hp : List.Pairwise (· < ·) xs)
    (h2 : 2 ≤ xs.length) (k : Nat) (hk : k < xs.length) :
    splineEval xs ys (xs.getD k 0) = ys.getD k 0 := by
  by_cases hin : k + 1 < xs.length
  · have hlt : xs.getD k 0 < xs.getD (k + 1) 0 := by
      rw [List.getD_eq_getElem xs 0 hk, List.getD_eq_getElem xs 0 hin]
      exact (List.pairwise_iff_getElem.1 hp) k (k + 1) hk hin (by omega)
    have hfi : findInterval xs (xs.getD k 0) = k :=
      findInterval_bracket xs _ k hp hin (le_refl _) hlt
    rw [splineEval, hfi]
    exact pieceEval_left _ _ _ _ _ _
  · have hk1 : k = xs.length - 1 := by omega
    have hall : ∀ a ∈ xs, a ≤ xs.getD k 0 := by
      intro a ha
      obtain ⟨j, hj, rfl⟩ := List.mem_iff_getElem.1 ha
      rw [List.getD_eq_getElem xs 0 hk]
      rcases Nat.lt_or_ge j k with hjk | hjk
      · exact le_of_lt ((List.pairwise_iff_getElem.1 hp) j k hj hk hjk)
      · have : j = k := by omega
        subst this
        exact le_refl _
    have hfi : findInterval xs (xs.getD k 0) = xs.length - 2 :=
      findInterval_ge_all xs _ h2 hall
    have hne : xs.getD (xs.length - 2) 0 ≠ xs.getD (xs.length - 2 + 1) 0 := by
      have hb1 : xs.length - 2 < xs.length := by omega
      have hb2 : xs.length - 2 + 1 < xs.length := by omega
      rw [List.getD_eq_getElem xs 0 hb1, List.getD_eq_getElem xs 0 hb2]
      exact ne_of_lt ((List.pairwise_iff_getElem.1 hp) _ _ hb1 hb2 (by omega))
    have hidx : xs.length - 2 + 1 = k := by omega
    rw [splineEval, hfi]
    rw [show xs.getD k 0 = xs.getD (xs.length - 2 + 1) 0 by rw [hidx]]
    rw [pieceEval_right _ _ _ _ _ _ hne, hidx]

/-! ### The accelerator cache never changes the result -/

lemma accelFind_eq_findInterval (xs : List ℚ) (hp : List.Pairwise (· < ·) xs)
    (cache : Nat) (t : ℚ) : accelFind xs cache t = findInterval xs t := by
  unfold accelFind
  split_ifs with h
  · exact (findInterval_bracket xs t cache hp h.1 h.2.1 h.2.2).symm
  · rfl

lemma evaluateAcc_fst (itp : Interp) (hp : List.Pairwise (· < ·) itp.xs)
    (cache : Nat) (xi : FP) :
    (evaluateAcc itp cache xi).1 = evaluate itp xi := by
  rw [evaluateAcc.eq_def, evaluate.eq_def]
  cases hbr : branchOf itp xi with
  | below => rfl
  | above => rfl
  | spline =>
    cases xi with
    | nan => rfl
    | num q =>
      simp only [splineEval, accelFind_eq_findInterval itp.xs hp cache q]

/-! ### Boundary values of a constructed interpolator -/

lemma headD_mem (l : List ℚ) (h : l ≠ []) : l.headD 0 ∈ l := by
  cases l with
  | nil => exact absurd rfl h
  | cons a t => simp

lemma getLastD_mem (l : List ℚ) (h : l ≠ []) : l.getLastD 0 ∈ l := by
  rw [List.getLastD_eq_getLast?, List.getLast?_eq_getLast l h]
  exact List.getLast_mem h

lemma construct_xs_ne_nil (x y : List ℚ) (itp : Interp)
    (h : construct x y = .ok itp) : itp.xs ≠ [] := by
  obtain ⟨hlen, -, -, -⟩ := construct_xs_facts x y itp h
  obtain ⟨-, h3, -⟩ := construct_ok x y itp h
  intro hnil
  rw [hnil] at hlen
  simp at hlen
  omega

lemma construct_first_le (x y : List ℚ) (itp : Interp)
    (h : construct x y = .ok itp) : ∀ a ∈ itp.xs, itp.first_x_ ≤ a := by
  obtain ⟨-, -, -, hxs, -, hfx, -⟩ := construct_ok x y itp h
  obtain ⟨-, -, hsorted, -⟩ := construct_xs_facts x y itp h
  rw [hfx, ← hxs]
  exact sorted_headD_le itp.xs hsorted

lemma construct_le_last (x y : List ℚ) (itp : Interp)
    (h : construct x y = .ok itp) : ∀ a ∈ itp.xs, a ≤ itp.last_x_ := by
  obtain ⟨-, -, -, hxs, -, -, hlx, -⟩ := construct_ok x y itp h
  obtain ⟨-, -, hsorted, -⟩ := construct_xs_facts x y itp h
  rw [hlx, ← hxs]
  exact sorted_le_getLastD itp.xs hsorted (construct_xs_ne_nil x y itp h)

lemma construct_first_mem (x y : List ℚ) (itp : Interp)
    (h : construct x y = .ok itp) : itp.first_x_ ∈ itp.xs := by
  obtain ⟨-, -, -, hxs, -, hfx, -⟩ := construct_ok x y itp h
  rw [hfx, ← hxs]
  exact headD_mem itp.xs (construct_xs_ne_nil x y itp h)

lemma construct_last_mem (x y : List ℚ) (itp : Interp)
    (h : construct x y = .ok itp) : itp.last_x_ ∈ itp.xs := by
  obtain ⟨-, -, -, hxs, -, -, hlx, -⟩ := construct_ok x y itp h
  rw [hlx, ← hxs]
  exact getLastD_mem itp.xs (construct_xs_ne_nil x y itp h)

lemma construct_mem_iff (x y : List ℚ) (itp : Interp)
    (h : construct x y = .ok itp) : ∀ a : ℚ, a ∈ itp.xs ↔ a ∈ x := by
  obtain ⟨hlen, -, -, hxs, -⟩ := construct_ok x y itp h
  intro a
  rw [hxs]
  exact (sortedX_perm x y (le_of_eq hlen.symm)).mem_iff

lemma construct_pairs_ne_nil (x y : List ℚ)
    (hlen : y.length = x.length) (h3 : 3 ≤ x.length) :
    sortedPairs x y ≠ [] := by
  intro hnil
  have := sortedPairs_length x y hlen
  rw [hnil] at this
  simp at this
  omega

lemma construct_first_pair (x y : List ℚ) (itp : Interp)
    (h : construct x y = .ok itp) :
    ∃ i : Nat, x[i]? = some itp.first_x_ ∧ y[i]? = some itp.first_y_ := by
  obtain ⟨hlen, h3, -, -, -, hfx, -, hfy, -⟩ := construct_ok x y itp h
  obtain ⟨p, L, hPL⟩ :=
    List.exists_cons_of_ne_nil (construct_pairs_ne_nil x y hlen h3)
  have hfx' : itp.first_x_ = p.1 := by
    rw [hfx]; unfold sortedX; rw [hPL]; simp
  have hfy' : itp.first_y_ = p.2 := by
    rw [hfy]; unfold sortedY; rw [hPL]; simp
  have hmem : p ∈ x.zip y := by
    rw [← (sortedPairs_perm x y).mem_iff, hPL]
    exact List.mem_cons_self p L
  rw [hfx', hfy']
  exact mem_zip_index x y p.1 p.2 (by rwa [Prod.mk.eta])

lemma construct_last_pair (x y : List ℚ) (itp : Interp)
    (h : construct x y = .ok itp) :
    ∃ i : Nat, x[i]? = some itp.last_x_ ∧ y[i]? = some itp.last_y_ := by
  obtain ⟨hlen, h3, -, -, -, -, hlx, -, hly⟩ := construct_ok x y itp h
  have hne := construct_pairs_ne_nil x y hlen h3
  set p := (sortedPairs x y).getLast hne with hpdef
  have hlx' : itp.last_x_ = p.1 := by
    rw [hlx]
    unfold sortedX
    rw [List.getLastD_eq_getLast?, List.getLast?_map,
      List.getLast?_eq_getLast _ hne]
    simp [hpdef]
  have hly' : itp.last_y_ = p.2 := by
    rw [hly]
    unfold sortedY
    rw [List.getLastD_eq_getLast?, List.getLast?_map,
      List.getLast?_eq_getLast _ hne]
    simp [hpdef]
  have hmem : p ∈ x.zip y := by
    rw [← (sortedPairs_perm x y).mem_iff]
    exact List.getLast_mem hne
  rw [hlx', hly']
  exact mem_zip_index x y p.1 p.2 (by rwa [Prod.mk.eta])

/-! ### The claims -/

/-- C1: for every constructed spline interpolator, `evaluate(xi)` returns
the y value paired with the smallest sample x whenever `xi` is strictly
below the smallest sample x, returns the y value paired with the largest
sample x whenever `xi` is strictly above the largest sample x (constant
extrapolation), and for all other `xi` evaluates the cubic spline. -/
theorem spline_constant_extrapolation (x y : List ℚ) (itp : Interp)
    (h : construct x y = .ok itp) :
    (itp.first_x_ ∈ x ∧ ∀ a ∈ x, itp.first_x_ ≤ a) ∧
    (itp.last_x_ ∈ x ∧ ∀ a ∈ x, a ≤ itp.last_x_) ∧
    (∃ i : Nat, x[i]? = some itp.first_x_ ∧ y[i]? = some itp.first_y_) ∧
    (∃ i : Nat, x[i]? = some itp.last_x_ ∧ y[i]? = some itp.last_y_) ∧
    (∀ q : ℚ, q < itp.first_x_ → evaluate itp (.num q) = .num itp.first_y_) ∧
    (∀ q : ℚ, itp.last_x_ < q → evaluate itp (.num q) = .num itp.last_y_) ∧
    (∀ q : ℚ, itp.first_x_ ≤ q → q ≤ itp.last_x_ →
      evaluate itp (.num q) = .num (splineEval itp.xs itp.ys q)) := by
  have hmem := construct_mem_iff x y itp h
  have hfirstle := construct_first_le x y itp h
  have hlelast := construct_le_last x y itp h
  have hfl : itp.first_x_ ≤ itp.last_x_ :=
    hlelast _ (construct_first_mem x y itp h)
  refine ⟨⟨(hmem _).1 (construct_first_mem x y itp h),
      fun a ha => hfirstle a ((hmem a).2 ha)⟩,
    ⟨(hmem _).1 (construct_last_mem x y itp h),
      fun a ha => hlelast a ((hmem a).2 ha)⟩,
    construct_first_pair x y itp h, construct_last_pair x y itp h,
    fun q hq => evaluate_num_below itp q hq,
    fun q hq => evaluate_num_above itp q
      (not_lt.2 (le_trans hfl (le_of_lt hq))) hq,
    fun q h1 h2 => evaluate_num_spline itp q h1 h2⟩

/-- Witness for C1 at the samples (0,3), (1,4), (2,5): evaluation at −1
(below the domain) yields 3, and at 7 (above the domain) yields 5. -/
theorem spline_constant_extrapolation_witness :
    construct [0, 1, 2] [3, 4, 5] = .ok ⟨[0, 1, 2], [3, 4, 5], 0, 2, 3, 5⟩ ∧
    evaluate ⟨[0, 1, 2], [3, 4, 5], 0, 2, 3, 5⟩ (.num (-1)) = .num 3 ∧
    evaluate ⟨[0, 1, 2], [3, 4, 5], 0, 2, 3, 5⟩ (.num 7) = .num 5 := by
  have hc : construct [0, 1, 2] [3, 4, 5] =
      .ok ⟨[0, 1, 2], [3, 4, 5], 0, 2, 3, 5⟩ := by decide
  obtain ⟨-, -, -, -, hbelow, habove, -⟩ :=
    spline_constant_extrapolation [0, 1, 2] [3, 4, 5] _ hc
  exact ⟨hc, hbelow (-1) (by norm_num), habove 7 (by norm_num)⟩

/-- C2: construction fails with `DuplicateAbscissa` exactly when, after
sorting the pairs by x ascending, two adjacent x values are equal, and the
reported error carries a duplicated x value; in particular the input
[(1,1),(1,2),(2,3)] fails naming x = 1. -/
theorem spline_duplicate_abscissa (x y : List ℚ)
    (hlen : y.length = x.length) (h3 : 3 ≤ x.length) :
    ((∃ v, construct x y = .error (.duplicateAbscissa v)) ↔
      ∃ (i : Nat) (v : ℚ),
        (sortedX x y)[i]? = some v ∧ (sortedX x y)[i + 1]? = some v) ∧
    (∀ v, construct x y = .error (.duplicateAbscissa v) →
      ∃ i : Nat,
        (sortedX x y)[i]? = some v ∧ (sortedX x y)[i + 1]? = some v) ∧
    construct [1, 1, 2] [1, 2, 3] = .error (.duplicateAbscissa 1) := by
  have hstep : ∀ v, construct x y = .error (.duplicateAbscissa v) ↔
      findDup (sortedX x y) = some v := by
    intro v
    unfold construct
    rw [if_neg (not_not_intro hlen), if_neg (not_lt.2 h3)]
    cases hfd : findDup (sortedX x y) with
    | some w => simp
    | none => simp
  refine ⟨⟨?_, ?_⟩, ?_, by decide⟩
  · rintro ⟨v, hv⟩
    obtain ⟨i, h1, h2⟩ := findDup_eq_some_adj _ v ((hstep v).1 hv)
    exact ⟨i, v, h1, h2⟩
  · rintro ⟨i, v, h1, h2⟩
    cases hfd : findDup (sortedX x y) with
    | some w => exact ⟨w, (hstep w).2 hfd⟩
    | none =>
      have hchain := (findDup_eq_none_iff _).1 hfd
      exact absurd ⟨i, v, h1, h2⟩ ((chain'_ne_iff_no_adj _).1 hchain)
  · intro v hv
    exact findDup_eq_some_adj _ v ((hstep v).1 hv)

/-- Witness for C2: the concrete input x = [1,1,2], y = [1,2,3] (pairs
(1,1), (1,2), (2,3)) is rejected with `DuplicateAbscissa 1`. -/
theorem spline_duplicate_abscissa_witness :
    construct [1, 1, 2] [1, 2, 3] = .error (.duplicateAbscissa 1) :=
  (spline_duplicate_abscissa [1, 1, 2] [1, 2, 3] (by decide) (by decide)).2.2

/-- C3: a constructed interpolant passes through every sample: for every
original index `i`, evaluating at `x i` returns exactly `y i` (exact
rational arithmetic, hence within any floating-point tolerance). -/
theorem spline_passes_through_samples (x y : List ℚ) (itp : Interp)
    (h : construct x y = .ok itp) (i : Nat) (xi yi : ℚ)
    (hx : x[i]? = some xi) (hy : y[i]? = some yi) :
    evaluate itp (.num xi) = .num yi := by
  obtain ⟨hxlen, hylen, hsorted, hp⟩ := construct_xs_facts x y itp h
  obtain ⟨hlen, h3, -, hxs, hys, -⟩ := construct_ok x y itp h
  obtain ⟨hxi, exi⟩ := List.getElem?_eq_some.1 hx
  obtain ⟨hyi, eyi⟩ := List.getElem?_eq_some.1 hy
  have hzb : i < (x.zip y).length := by
    rw [List.length_zip]; omega
  have hzip : (xi, yi) ∈ x.zip y := by
    have : (x.zip y)[i] = (xi, yi) := by
      rw [List.getElem_zip, exi, eyi]
    exact this ▸ List.getElem_mem hzb
  have hsp : (xi, yi) ∈ sortedPairs x y :=
    (sortedPairs_perm x y).mem_iff.2 hzip
  obtain ⟨k, hk, hkeq⟩ := List.mem_iff_getElem.1 hsp
  have hkx : k < itp.xs.length := by
    rw [hxs]; unfold sortedX; rw [List.length_map]; exact hk
  have hky : k < itp.ys.length := by
    rw [hys]; unfold sortedY; rw [List.length_map]; exact hk
  have hgx : itp.xs.getD k 0 = xi := by
    rw [hxs]
    have hk' : k < (sortedX x y).length := by
      unfold sortedX; rw [List.length_map]; exact hk
    rw [List.getD_eq_getElem _ 0 hk']
    unfold sortedX
    rw [List.getElem_map]
    exact congrArg Prod.fst hkeq
  have hgy : itp.ys.getD k 0 = yi := by
    rw [hys]
    have hk' : k < (sortedY x y).length := by
      unfold sortedY; rw [List.length_map]; exact hk
    rw [List.getD_eq_getElem _ 0 hk']
    unfold sortedY
    rw [List.getElem_map]
    exact congrArg Prod.snd hkeq
  have hximem : xi ∈ itp.xs := by
    rw [← hgx]
    exact List.getD_eq_getElem _ 0 hkx ▸ List.getElem_mem hkx
  have h1 : itp.first_x_ ≤ xi := construct_first_le x y itp h xi hximem
  have h2 : xi ≤ itp.last_x_ := construct_le_last x y itp h xi hximem
  rw [evaluate_num_spline itp xi h1 h2]
  rw [← hgx, ← hgy]
  rw [splineEval_sample itp.xs itp.ys hp (by omega) k hkx]

/-- Witness for C3: with samples (0,3), (1,4), (2,5), evaluating at the
middle sample x = 1 returns its y value 4. -/
theorem spline_passes_through_samples_witness :
    evaluate ⟨[0, 1, 2], [3, 4, 5], 0, 2, 3, 5⟩ (.num 1) = .num 4 := by
  have hc : construct [0, 1, 2] [3, 4, 5] =
      .ok ⟨[0, 1, 2], [3, 4, 5], 0, 2, 3, 5⟩ := by decide
  exact spline_passes_through_samples [0, 1, 2] [3, 4, 5] _ hc 1 1 4
    (by decide) (by decide)

/-- C4: constructing from sequences of different lengths fails with
`InvalidInput`, and no construction failure ever produces an interpolator
value. -/
theorem spline_invalid_input_length (x y : List ℚ)
    (h : x.length ≠ y.length) :
    construct x y = .error .invalidInput ∧
    (∀ (x' y' : List ℚ) (e : InterpError), construct x' y' = .error e →
      ∀ itp : Interp, construct x' y' ≠ .ok itp) := by
  constructor
  · unfold construct
    rw [if_pos (Ne.symm h)]
  · intro x' y' e he itp hok
    rw [he] at hok
    exact Except.noConfusion hok

/-- Witness for C4: x of length 2 against y of length 3. -/
theorem spline_invalid_input_length_witness :
    construct [1, 2] [1, 2, 3] = .error .invalidInput :=
  (spline_invalid_input_length [1, 2] [1, 2, 3] (by decide)).1

/-- C5: constructing from equal-length sequences with fewer than 3 points
fails with `InsufficientData`. -/
theorem spline_insufficient_data (x y : List ℚ)
    (hlen : y.length = x.length) (hn : x.length < 3) :
    construct x y = .error .insufficientData := by
  unfold construct
  rw [if_neg (not_not_intro hlen), if_pos hn]

/-- Witness for C5: exactly 2 points fail this way. -/
theorem spline_insufficient_data_witness :
    construct [1, 2] [3, 4] = .error .insufficientData :=
  spline_insufficient_data [1, 2] [3, 4] (by decide) (by decide)

/-- C6: construction stable-sorts the (x, y) pairs by x ascending with one
permutation applied to both sequences — the multiset of pairs is preserved
and the stored abscissae are sorted (strictly, after the duplicate check) —
and the stored domain bounds are the minimum and maximum input x with
their originally paired y values. -/
theorem spline_sort_pairs_jointly (x y : List ℚ) (itp : Interp)
    (h : construct x y = .ok itp) :
    List.Perm (itp.xs.zip itp.ys) (x.zip y) ∧
    List.Sorted (· ≤ ·) itp.xs ∧
    List.Pairwise (· < ·) itp.xs ∧
    (itp.first_x_ ∈ x ∧ ∀ a ∈ x, itp.first_x_ ≤ a) ∧
    (itp.last_x_ ∈ x ∧ ∀ a ∈ x, a ≤ itp.last_x_) ∧
    (∃ i : Nat, x[i]? = some itp.first_x_ ∧ y[i]? = some itp.first_y_) ∧
    (∃ i : Nat, x[i]? = some itp.last_x_ ∧ y[i]? = some itp.last_y_) := by
  obtain ⟨-, -, -, hxs, hys, -⟩ := construct_ok x y itp h
  obtain ⟨-, -, hsorted, hp⟩ := construct_xs_facts x y itp h
  have hmem := construct_mem_iff x y itp h
  have hfirstle := construct_first_le x y itp h
  have hlelast := construct_le_last x y itp h
  have hzip : itp.xs.zip itp.ys = sortedPairs x y := by
    rw [hxs, hys]
    unfold sortedX sortedY
    rw [List.zip_map']
    simp
  refine ⟨hzip ▸ sortedPairs_perm x y, hsorted, hp,
    ⟨(hmem _).1 (construct_first_mem x y itp h),
      fun a ha => hfirstle a ((hmem a).2 ha)⟩,
    ⟨(hmem _).1 (construct_last_mem x y itp h),
      fun a ha => hlelast a ((hmem a).2 ha)⟩,
    construct_first_pair x y itp h, construct_last_pair x y itp h⟩

/-- Witness for C6: constructing from x = [2,0,1], y = [5,3,4] sorts the
pairs jointly into xs = [0,1,2], ys = [3,4,5] with bounds (0,3) and
(2,5). -/
theorem spline_sort_pairs_jointly_witness :
    construct [2, 0, 1] [5, 3, 4] = .ok ⟨[0, 1, 2], [3, 4, 5], 0, 2, 3, 5⟩ ∧
    List.Pairwise (· < ·) (Interp.xs ⟨[0, 1, 2], [3, 4, 5], 0, 2, 3, 5⟩) := by
  have hc : construct [2, 0, 1] [5, 3, 4] =
      .ok ⟨[0, 1, 2], [3, 4, 5], 0, 2, 3, 5⟩ := by decide
  obtain ⟨-, -, hp, -⟩ := spline_sort_pairs_jointly [2, 0, 1] [5, 3, 4] _ hc
  exact ⟨hc, hp⟩

/-- C7: after construction the sample set is never mutated and evaluation
is deterministic: with the accelerator cache made explicit, the result of
`operator()` does not depend on the cache state, so two calls at the same
`xi` agree and no call changes the result of any other call. -/
theorem spline_evaluation_pure (x y : List ℚ) (itp : Interp)
    (h : construct x y = .ok itp) (xi xj : FP) (a b : Nat) :
    (evaluateAcc itp a xi).1 = evaluate itp xi ∧
    (evaluateAcc itp a xi).1 = (evaluateAcc itp b xi).1 ∧
    (evaluateAcc itp (evaluateAcc itp a xj).2 xi).1 = evaluate itp xi := by
  have hp := (construct_xs_facts x y itp h).2.2.2
  refine ⟨evaluateAcc_fst itp hp a xi, ?_, evaluateAcc_fst itp hp _ xi⟩
  rw [evaluateAcc_fst itp hp a xi, evaluateAcc_fst itp hp b xi]

/-- Witness for C7: on the interpolator through (0,3), (1,4), (2,5), a
call at xi = 1/2 gives the same result from a stale cache 1 as from cache
0, and after a prior call at xi = 2. -/
theorem spline_evaluation_pure_witness :
    (evaluateAcc ⟨[0, 1, 2], [3, 4, 5], 0, 2, 3, 5⟩ 1 (.num (1/2))).1 =
      evaluate ⟨[0, 1, 2], [3, 4, 5], 0, 2, 3, 5⟩ (.num (1/2)) ∧
    (evaluateAcc ⟨[0, 1, 2], [3, 4, 5], 0, 2, 3, 5⟩ 1 (.num (1/2))).1 =
      (evaluateAcc ⟨[0, 1, 2], [3, 4, 5], 0, 2, 3, 5⟩ 0 (.num (1/2))).1 := by
  have hc : construct [0, 1, 2] [3, 4, 5] =
      .ok ⟨[0, 1, 2], [3, 4, 5], 0, 2, 3, 5⟩ := by decide
  obtain ⟨h1, h2, -⟩ := spline_evaluation_pure [0, 1, 2] [3, 4, 5] _ hc
    (.num (1/2)) (.num 2) 1 0
  exact ⟨h1, h2⟩

/-- C8: every per-field buffer of the ROOT writer has the same fixed
capacity `max_buffer_size_ = 10000`, a constant independent of the writer
state. -/
theorem root_output_buffer_capacity (r : RootOutput) :
    max_buffer_size_ = 10000 ∧
    r.p0.1.length = max_buffer_size_ ∧
    r.px.1.length = max_buffer_size_ ∧
    r.py.1.length = max_buffer_size_ ∧
    r.pz.1.length = max_buffer_size_ ∧
    r.t.1.length = max_buffer_size_ ∧
    r.x.1.length = max_buffer_size_ ∧
    r.y.1.length = max_buffer_size_ ∧
    r.z.1.length = max_buffer_size_ ∧
    r.formation_time_.1.length = max_buffer_size_ ∧
    r.xsec_factor_.1.length = max_buffer_size_ ∧
    r.time_last_coll_.1.length = max_buffer_size_ ∧
    r.pdgcode.1.length = max_buffer_size_ ∧
    r.charge.1.length = max_buffer_size_ ∧
    r.coll_per_part_.1.length = max_buffer_size_ ∧
    r.proc_id_origin_.1.length = max_buffer_size_ ∧
    r.proc_type_origin_.1.length = max_buffer_size_ ∧
    r.pdg_mother1_.1.length = max_buffer_size_ ∧
    r.pdg_mother2_.1.length = max_buffer_size_ ∧
    (∀ r' : RootOutput, r'.p0.1.length = r.p0.1.length) :=
  ⟨rfl, r.p0.2, r.px.2, r.py.2, r.pz.2, r.t.2, r.x.2, r.y.2, r.z.2,
    r.formation_time_.2, r.xsec_factor_.2, r.time_last_coll_.2,
    r.pdgcode.2, r.charge.2, r.coll_per_part_.2, r.proc_id_origin_.2,
    r.proc_type_origin_.2, r.pdg_mother1_.2, r.pdg_mother2_.2,
    fun r' => r'.p0.2.trans r.p0.2.symm⟩

/-- C9: the extrapolation comparisons are strict: at `xi` exactly equal to
the smallest or largest sample x the spline branch runs (not the stored
constants), and a NaN `xi` fails both comparisons and reaches the spline
branch. -/
theorem spline_boundary_strict (x y : List ℚ) (itp : Interp)
    (h : construct x y = .ok itp) :
    branchOf itp (.num itp.first_x_) = .spline ∧
    branchOf itp (.num itp.last_x_) = .spline ∧
    branchOf itp .nan = .spline ∧
    evaluate itp (.num itp.first_x_) =
      .num (splineEval itp.xs itp.ys itp.first_x_) ∧
    evaluate itp (.num itp.last_x_) =
      .num (splineEval itp.xs itp.ys itp.last_x_) ∧
    evaluate itp .nan = .nan := by
  have hfl : itp.first_x_ ≤ itp.last_x_ :=
    construct_le_last x y itp h _ (construct_first_mem x y itp h)
  exact ⟨branchOf_num_spline itp _ (le_refl _) hfl,
    branchOf_num_spline itp _ hfl (le_refl _),
    branchOf_nan itp,
    evaluate_num_spline itp _ (le_refl _) hfl,
    evaluate_num_spline itp _ hfl (le_refl _),
    evaluate_nan itp⟩

/-- Witness for C9: on the interpolator through (0,3), (1,4), (2,5), the
boundary points and NaN all select the spline branch. -/
theorem spline_boundary_strict_witness :
    branchOf ⟨[0, 1, 2], [3, 4, 5], 0, 2, 3, 5⟩ (.num 0) = .spline ∧
    branchOf ⟨[0, 1, 2], [3, 4, 5], 0, 2, 3, 5⟩ (.num 2) = .spline ∧
    branchOf ⟨[0, 1, 2], [3, 4, 5], 0, 2, 3, 5⟩ .nan = .spline := by
  have hc : construct [0, 1, 2] [3, 4, 5] =
      .ok ⟨[0, 1, 2], [3, 4, 5], 0, 2, 3, 5⟩ := by decide
  obtain ⟨h1, h2, h3, -⟩ := spline_boundary_strict [0, 1, 2] [3, 4, 5] _ hc
  exact ⟨h1, h2, h3⟩

/-- C10: the constructor's checks run in a fixed order — length mismatch
first, then the minimum point count, then duplicates after sorting — so
any error on equal-length input of at least 3 points is a duplicate error,
and an input violating several conditions at once (x = [1,1] of length 2
against y = [1,2,3] of length 3) reports the length mismatch. -/
theorem spline_check_order (x y : List ℚ) :
    (y.length ≠ x.length → construct x y = .error .invalidInput) ∧
    (y.length = x.length → x.length < 3 →
      construct x y = .error .insufficientData) ∧
    (y.length = x.length → 3 ≤ x.length → ∀ e : InterpError,
      construct x y = .error e → ∃ v, e = .duplicateAbscissa v) ∧
    construct [1, 1] [1, 2, 3] = .error .invalidInput := by
  refine ⟨?_, ?_, ?_, by decide⟩
  · intro h1
    unfold construct
    rw [if_pos h1]
  · intro h1 h2
    unfold construct
    rw [if_neg (not_not_intro h1), if_pos h2]
  · intro h1 h2 e he
    unfold construct at he
    rw [if_neg (not_not_intro h1), if_neg (not_lt.2 h2)] at he
    split at he
    · rename_i v hv
      rw [Except.error.injEq] at he
      exact ⟨v, he.symm⟩
    · exact Except.noConfusion he

/-- Witness for C10: the triple-violation input x = [1,1] (too short and
duplicated) against y = [1,2,3] (length mismatch) reports `InvalidInput`. -/
theorem spline_check_order_witness :
    construct [1, 1] [1, 2, 3] = .error .invalidInput :=
  (spline_check_order [1, 1] [1, 2, 3]).2.2.2

end Smash
